import Mathlib

/-!
Shallow embedding of the Zeeguu API endpoint layer (`zeeguu/api/endpoints.py`)
and of the parts of the `zeeguu.model` module the endpoints call into.

The repository ships only the endpoint file; the `zeeguu.model` module
(users, sessions, words, searches, contributions, texts, urls, languages) is
referenced but not part of the sources, so its operations are modelled from
the specification and carry `Modelled from the spec:` in their doc comments.
The backing store is an explicit record of lists; entities that the
vocabulary store deduplicates by value (words, urls) are embedded with value
identity, so that "the same stored entity" is exactly "the same value".
Timestamps are natural numbers (seconds); request handlers are pure state
transformers, and `flask.abort(status)` is an `Except.error status` that
propagates out of the wrapped view.
-/

namespace Zeeguu

/-- Modelled from the spec: `model.Url` is an `(address, title)` pair,
deduplicated by address. -/
structure Url where
  url : String
  title : String
deriving DecidableEq, Repr

/-- Modelled from the spec: `model.Word` is a `(text, language)` pair,
deduplicated, so value identity is entity identity. -/
structure Word where
  word : String
  language : String
deriving DecidableEq, Repr

/-- Modelled from the spec: `model.Text` is `(content, language, source url)`,
created fresh per occurrence (never deduplicated), with a creation time. -/
structure Text where
  content : String
  language : String
  url : Option Url
  time : Nat
deriving DecidableEq, Repr

/-- Modelled from the spec: `model.Search` records a user's lookup of an
origin word towards a target language, with an optional context text and an
optional link to the contribution that later promoted it. -/
structure Search where
  id : Nat
  userId : Nat
  word : Word
  language : String
  text : Option Text
  contribution : Option Nat
deriving DecidableEq, Repr

/-- Modelled from the spec: `model.Contribution` is
`(origin word, translation word, user, text, timestamp)`. -/
structure Contribution where
  id : Nat
  origin : Word
  translation : Word
  userId : Nat
  text : Text
  time : Nat
deriving DecidableEq, Repr

/-- Modelled from the spec: `model.Session` is an integer token bound to a
user, with a last-used timestamp. -/
structure Session where
  id : Nat
  userId : Nat
  lastUsedAt : Nat
deriving DecidableEq, Repr

/-- Modelled from the spec: `model.User` with the two language preferences. -/
structure User where
  id : Nat
  learnedLanguage : String
  nativeLanguage : String
deriving DecidableEq, Repr

/-- The backing store: one list per entity table, a set of known language
codes, the user reading log (`user.read(text)`), and the next fresh row id. -/
structure DB where
  languages : List String
  users : List User
  sessions : List Session
  searches : List Search
  contributions : List Contribution
  reads : List (Nat × Text)
  nextId : Nat
deriving DecidableEq, Repr

/-- An HTTP response: status, header list, body. -/
structure Resp where
  status : Nat := 200
  headers : List (String × String) := []
  body : String := ""
deriving DecidableEq, Repr

/-- Embedding of Python `str.replace` specialised to the single-character
pattern and replacement used at the call sites: each occurrence of `pat`
becomes `rep`, every other character is kept. -/
def replaceChar (pat rep : Char) : List Char → List Char
  | [] => []
  | c :: rest => (if c = pat then rep else c) :: replaceChar pat rep rest

/-- Embedding of `decode_word(word): return word.replace("+", " ")`. -/
def decode_word (word : String) : String :=
  String.mk (replaceChar '+' ' ' word.data)

/-- Whitespace characters Python `int()` ignores around the digits. -/
def isPySpace (c : Char) : Bool :=
  c = ' ' || c = '\t' || c = '\n' || c = '\r' || c.toNat = 11 || c.toNat = 12

/-- Value of a nonempty all-decimal-digit character list, `none` otherwise. -/
def digitsToNat (cs : List Char) : Option Nat :=
  if cs ≠ [] ∧ cs.all Char.isDigit then
    some (cs.foldl (fun n c => 10 * n + (c.toNat - 48)) 0)
  else none

/-- Embedding of Python 2 `int()` applied to a request string: optional
surrounding whitespace, an optional sign, then one or more decimal digits;
anything else raises, which the caller turns into a 401. -/
def pyInt? (s : String) : Option Int :=
  let trimmed := ((s.data.dropWhile isPySpace).reverse.dropWhile isPySpace).reverse
  match trimmed with
  | '+' :: rest => (digitsToNat rest).map (fun n => (n : Int))
  | '-' :: rest => (digitsToNat rest).map (fun n => -(n : Int))
  | rest => (digitsToNat rest).map (fun n => (n : Int))

/-- Embedding of `model.Session.query.get(session_id)`: primary-key lookup of
a session row by the parsed integer token. -/
def Session.get (db : DB) (sid : Int) : Option Session :=
  db.sessions.find? (fun s => decide ((s.id : Int) = sid))

/-- Modelled from the spec: `session.update_use_date()` sets the session's
`last_used_at` to the current time and changes nothing else. -/
def update_use_date (db : DB) (sid : Nat) (now : Nat) : DB :=
  { db with
    sessions := db.sessions.map (fun s =>
      if s.id = sid then { s with lastUsedAt := now } else s) }

/-- Composite of the authorisation steps of `with_session`: the `session`
query parameter must be present, parse as an integer, and match a stored
session row. -/
def session_of (db : DB) (sessionParam : Option String) : Option Session :=
  match sessionParam with
  | none => none
  | some sp =>
    match pyInt? sp with
    | none => none
    | some sid => Session.get db sid

/-- Embedding of the `with_session` decorator: a missing parameter
(`KeyError`), a non-integer parameter (`ValueError`), or an unknown session
id each `abort(401)`; otherwise the session's use date is refreshed and the
wrapped view runs as the session's user. -/
def with_session (db : DB) (sessionParam : Option String) (now : Nat)
    (view : DB → Nat → DB × Except Nat Resp) : DB × Except Nat Resp :=
  match sessionParam with
  | none => (db, Except.error 401)
  | some sp =>
    match pyInt? sp with
    | none => (db, Except.error 401)
    | some sid =>
      match Session.get db sid with
      | none => (db, Except.error 401)
      | some session => view (update_use_date db session.id now) session.userId

/-- Embedding of the `cross_domain` decorator: a response returned by the view
gets the permissive CORS header; an exception raised by the view (such as an
`abort`) propagates untouched, so the header line never runs for it. -/
def cross_domain (result : DB × Except Nat Resp) : DB × Except Nat Resp :=
  match result with
  | (db, Except.ok r) =>
    (db, Except.ok { r with headers := ("Access-Control-Allow-Origin", "*") :: r.headers })
  | (db, Except.error e) => (db, Except.error e)

/-- Flask's rendering of a handler outcome: a returned response is sent as
is, an uncaught `abort(status)` becomes the framework's own error response,
which carries none of the decorator-added headers. -/
def render : Except Nat Resp → Resp
  | Except.ok r => r
  | Except.error e => { status := e, headers := [], body := "" }

/-- Embedding of the `validate` view body: plain "OK". -/
def validate (db : DB) (_uid : Nat) : DB × Except Nat Resp :=
  (db, Except.ok { body := "OK" })

/-- The `/validate` route: `cross_domain` outside, `with_session` inside. -/
def validate_endpoint (db : DB) (sessionParam : Option String) (now : Nat) :
    DB × Except Nat Resp :=
  cross_domain (with_session db sessionParam now validate)

/-- Modelled from the spec: `model.Word.find(text, language)` finds or
creates the deduplicated `(text, language)` entity; with value identity the
entity returned is the pair itself. -/
def Word.find (text language : String) : Word := ⟨text, language⟩

/-- Modelled from the spec: `model.Url.find(address, title)` finds or creates
the url row for this address, the title being set at creation. -/
def Url.find (address title : String) : Url := ⟨address, title⟩

/-- Modelled from the spec: `model.Language.find(code)` returns the language
for a known code and fails with NotFound otherwise. -/
def Language.find (db : DB) (code : String) : Option String :=
  if code ∈ db.languages then some code else none

/-- Modelled from the spec: `model.Text.find(content, language)` as used by
`lookup` produces a text row for this content; texts are never deduplicated,
so the row is fresh and carries no source url. -/
def Text.find (content language : String) (now : Nat) : Text :=
  ⟨content, language, none, now⟩

/-- The form fields of `contribute_with_context`: `url` and `context` are
required, `title` is optional and defaults to the empty string. -/
structure ContribForm where
  title : Option String
  url : String
  context : String
deriving DecidableEq, Repr

/-- Embedding of the query
`Search.query.filter_by(user=.., word=.., language=..)`: the user's searches
for this origin word and target language. -/
def contribMatches (db : DB) (uid : Nat) (word : Word) (to_lang : String) :
    List Search :=
  db.searches.filter (fun s =>
    decide (s.userId = uid ∧ s.word = word ∧ s.language = to_lang))

/-- Embedding of the `contribute_with_context` view body, run for the
authenticated user `uid`: decode the two terms, find or create the
vocabulary entities, query the user's matching searches ordered by id
descending and take the first, build the fresh text and contribution, then
either attach the contribution to the found search or add it standalone.
`none` models a `Language.find` failure propagating out of the handler. -/
def contribute_with_context (db : DB) (uid : Nat)
    (from_lang_code term to_lang_code translation : String)
    (form : ContribForm) (now : Nat) : Option (DB × String) :=
  let contributed_url_title := match form.title with
    | some t => t
    | none => ""
  let url := Url.find form.url contributed_url_title
  match Language.find db from_lang_code with
  | none => none
  | some from_lang =>
  match Language.find db to_lang_code with
  | none => none
  | some to_lang =>
    let word := Word.find (decode_word term) from_lang
    let translationWord := Word.find (decode_word translation) to_lang
    let search :=
      ((contribMatches db uid word to_lang).insertionSort
        (fun a b => a.id ≥ b.id)).head?
    let new_text : Text := ⟨form.context, from_lang, some url, now⟩
    let contribution : Contribution :=
      ⟨db.nextId, word, translationWord, uid, new_text, now⟩
    match search with
    | some s =>
      some ({ db with
              searches := db.searches.map (fun t =>
                if t.id = s.id then { t with contribution := some contribution.id }
                else t),
              contributions := db.contributions ++ [contribution],
              nextId := db.nextId + 1 }, "OK")
    | none =>
      some ({ db with
              contributions := db.contributions ++ [contribution],
              nextId := db.nextId + 1 }, "OK")

/-- Embedding of the `lookup` view body, run for the authenticated user
`uid`: resolve both languages, optionally create a text from the raw `text`
form field (also logging it as read), then append a fresh search row for the
decoded term. `none` models a `Language.find` failure. -/
def lookup (db : DB) (uid : Nat) (from_lang term to_lang : String)
    (content : Option String) (now : Nat) : Option (DB × String) :=
  match Language.find db from_lang with
  | none => none
  | some fl =>
  match Language.find db to_lang with
  | none => none
  | some tl =>
    let step := match content with
      | some c =>
        let t := Text.find c fl now
        ({ db with reads := db.reads ++ [(uid, t)] }, some t)
      | none => (db, (none : Option Text))
    let db1 := step.1
    let text := step.2
    some ({ db1 with
            searches := db1.searches ++
              [⟨db1.nextId, uid, Word.find (decode_word term) fl, tl, text, none⟩],
            nextId := db1.nextId + 1 }, "OK")

/-- Calendar date of a timestamp in seconds: the day index, the time-of-day
component discarded. -/
def calendarDate (t : Nat) : Nat := t / 86400

/-- Modelled from the spec: `user.contribs_by_date()` groups the user's
contributions by the calendar date of their text and returns the bucket map
together with the distinct dates sorted most-recent-first. -/
def contribs_by_date (db : DB) (uid : Nat) : (Nat → List Contribution) × List Nat :=
  let cs := db.contributions.filter (fun c => decide (c.userId = uid))
  let dates := (cs.map (fun c => calendarDate c.text.time)).dedup
  (fun d => cs.filter (fun c => decide (calendarDate c.text.time = d)),
   dates.insertionSort (fun a b => a ≥ b))

/-- One entry of the `contribs_by_day` response: the JSON keys `id`, `from`,
`to`, `title`, `url` and the optional `context`. -/
structure ContribEntry where
  id : Nat
  origin_word : String
  translation_word : String
  title : String
  url : String
  context : Option String
deriving DecidableEq, Repr

/-- One date bucket of the `contribs_by_day` response. -/
structure DateEntry where
  date : Nat
  contribs : List ContribEntry
deriving DecidableEq, Repr

/-- Serialisation of one contribution as `contributions_by_day` builds it;
dereferencing `c.text.url` is total here with `""` for an absent url. -/
def contribEntryOf (with_context : Bool) (c : Contribution) : ContribEntry :=
  { id := c.id
    origin_word := c.origin.word
    translation_word := c.translation.word
    title := ((c.text.url).map Url.title).getD ""
    url := ((c.text.url).map Url.url).getD ""
    context := if with_context then some c.text.content else none }

/-- Embedding of the `contributions_by_day` view body, run for the
authenticated user `uid`: the context is included exactly when the path
segment is the string "with_context"; the buckets come from
`contribs_by_date` in its date order. -/
def contributions_by_day (db : DB) (uid : Nat) (return_context : String) :
    List DateEntry :=
  let with_context := return_context == "with_context"
  let pair := contribs_by_date db uid
  pair.2.map (fun date =>
    { date := date, contribs := (pair.1 date).map (contribEntryOf with_context) })

/-- Embedding of the `/goslate/<word>/<from_lang_code>` view body; `gs` is
the external `goslate.Goslate().translate(text, target, source)` provider. -/
def translate (gs : String → String → String → String)
    (word from_lang_code : String) : String :=
  gs word "en" from_lang_code

/-- Embedding of the `/translate_from_to/<word>/<from>/<to>` view body. -/
def translate_from_to (gs : String → String → String → String)
    (word from_lang_code to_lang_code : String) : String :=
  gs word to_lang_code from_lang_code

/-- Embedding of the `/translate_with_context/<word>/<from>/<to>` view body:
the `context` and `url` form fields are read but never passed on. -/
def translate_from_to_with_context (gs : String → String → String → String)
    (word from_lang_code to_lang_code : String) (context url : String) : String :=
  gs word to_lang_code from_lang_code

/-- An empty store, used for concrete evaluations. -/
def emptyDB : DB := ⟨[], [], [], [], [], [], 0⟩

/-- A small populated store: one user with one session and two prior searches
for "cat" towards German, used for concrete evaluations. -/
def dbSample : DB :=
  { languages := ["en", "de"]
    users := [⟨7, "de", "en"⟩]
    sessions := [⟨99, 7, 0⟩]
    searches := [⟨1, 7, ⟨"cat", "en"⟩, "de", none, none⟩,
                 ⟨3, 7, ⟨"cat", "en"⟩, "de", none, none⟩]
    contributions := []
    reads := []
    nextId := 4 }

instance : IsTotal Search (fun a b => a.id ≥ b.id) :=
  ⟨fun a b => le_total b.id a.id⟩

instance : IsTrans Search (fun a b => a.id ≥ b.id) :=
  ⟨fun _ _ _ h1 h2 => le_trans h2 h1⟩

/-- Helper: an empty result of the descending sort means the input was empty. -/
theorem head_sortDesc_none {l : List Search}
    (h : (l.insertionSort (fun a b => a.id ≥ b.id)).head? = none) : l = [] := by
  have hperm := List.perm_insertionSort (fun a b : Search => a.id ≥ b.id) l
  cases hl : l.insertionSort (fun a b => a.id ≥ b.id) with
  | nil => rw [hl] at hperm; exact hperm.symm.eq_nil
  | cons x xs => rw [hl] at h; cases h

/-- Helper: the head of the descending sort is a member of maximal id. -/
theorem head_sortDesc_max {l : List Search} {s : Search}
    (h : (l.insertionSort (fun a b => a.id ≥ b.id)).head? = some s) :
    s ∈ l ∧ ∀ t ∈ l, t.id ≤ s.id := by
  have hperm := List.perm_insertionSort (fun a b : Search => a.id ≥ b.id) l
  have hsorted := List.sorted_insertionSort (fun a b : Search => a.id ≥ b.id) l
  cases hl : l.insertionSort (fun a b => a.id ≥ b.id) with
  | nil => rw [hl] at h; cases h
  | cons x xs =>
    rw [hl] at h
    have hxs : x = s := by
      simpa using h
    subst hxs
    rw [hl] at hperm hsorted
    refine ⟨hperm.mem_iff.mp (List.mem_cons_self _ _), ?_⟩
    intro t ht
    rcases List.mem_cons.mp (hperm.mem_iff.mpr ht) with h1 | h2
    · exact le_of_eq (congrArg Search.id h1)
    · exact List.rel_of_sorted_cons hsorted t h2

/-- C6: `decode_word` replaces every occurrence of the placeholder `+` by a
space and changes nothing else: the length is preserved and each position
maps pointwise, `+` to a space and any other character to itself. -/
theorem decode_word_spec (w : String) :
    (decode_word w).length = w.length
      ∧ ∀ i : Nat, (decode_word w).data.get? i
          = (w.data.get? i).map (fun c => if c = '+' then ' ' else c) := by
  constructor
  · show (String.mk (replaceChar '+' ' ' w.data)).length = w.length
    rw [String.length, String.length]
    show (replaceChar '+' ' ' w.data).length = w.data.length
    induction w.data with
    | nil => rfl
    | cons c cs ih => simp [replaceChar, ih]
  · intro i
    show (replaceChar '+' ' ' w.data).get? i = _
    induction w.data generalizing i with
    | nil => cases i <;> rfl
    | cons c cs ih =>
      cases i with
      | zero => rfl
      | succ n => simpa [replaceChar] using ih n

/-- C7: the contextual translation endpoint returns exactly what
`translate_from_to` returns on the same word and language pair, and its
result does not depend on the `context` and `url` form fields. -/
theorem translate_with_context_pass_through
    (gs : String → String → String → String)
    (word from_lang_code to_lang_code context url context2 url2 : String) :
    translate_from_to_with_context gs word from_lang_code to_lang_code context url
        = translate_from_to gs word from_lang_code to_lang_code
      ∧ translate_from_to_with_context gs word from_lang_code to_lang_code context url
        = translate_from_to_with_context gs word from_lang_code to_lang_code context2 url2 :=
  ⟨rfl, rfl⟩

/-- C10: the legacy goslate endpoint calls the provider with the target
language hardcoded to "en": for every word and source language it equals
`translate_from_to` towards "en", and no caller input selects the target. -/
theorem translate_hardcodes_english (gs : String → String → String → String)
    (word from_lang_code : String) :
    translate gs word from_lang_code = gs word "en" from_lang_code
      ∧ translate gs word from_lang_code
          = translate_from_to gs word from_lang_code "en" :=
  ⟨rfl, rfl⟩

/-- C9: a protected request whose `session` parameter is present but does not
parse as an integer is rejected with 401, whatever view is wrapped. -/
theorem with_session_nonnumeric_401 (db : DB) (sp : String) (now : Nat)
    (view : DB → Nat → DB × Except Nat Resp) (h : pyInt? sp = none) :
    with_session db (some sp) now view = (db, Except.error 401) := by
  simp [with_session, h]

/-- Witness for C9 at the opaque token "bad-token". -/
theorem with_session_nonnumeric_401_witness :
    pyInt? "bad-token" = none
      ∧ with_session emptyDB (some "bad-token") 7 validate
          = (emptyDB, Except.error 401) :=
  ⟨by decide, with_session_nonnumeric_401 emptyDB "bad-token" 7 validate (by decide)⟩

/-- C2: a protected request with no `session` parameter, or one that does not
resolve to a stored session, fails with 401 before the wrapped view runs:
the outcome is independent of the view, the store is unchanged, and the
response rendered after `cross_domain` has status 401. -/
theorem with_session_fails_closed (db : DB) (sessionParam : Option String)
    (now : Nat) (view : DB → Nat → DB × Except Nat Resp)
    (h : session_of db sessionParam = none) :
    with_session db sessionParam now view = (db, Except.error 401)
      ∧ (render (cross_domain (with_session db sessionParam now view)).2).status
          = 401 := by
  have hmain : with_session db sessionParam now view = (db, Except.error 401) := by
    cases sessionParam with
    | none => rfl
    | some sp =>
      cases hip : pyInt? sp with
      | none => simp [with_session, hip]
      | some sid =>
        have hg : Session.get db sid = none := by
          simpa [session_of, hip] using h
        simp [with_session, hip, hg]
  refine ⟨hmain, ?_⟩
  rw [hmain]
  rfl

/-- Witness for C2: a request with no session parameter on the empty store. -/
theorem with_session_fails_closed_witness :
    with_session emptyDB none 3 validate = (emptyDB, Except.error 401)
      ∧ (render (cross_domain (with_session emptyDB none 3 validate)).2).status
          = 401 :=
  with_session_fails_closed emptyDB none 3 validate rfl

/-- C8: a request whose `session` parameter resolves to a stored session runs
the view as that session's user on a store in which exactly that session's
last-used timestamp was set to the current time: every session row is either
untouched or has only `lastUsedAt` replaced, and every other table and field
of the store is unchanged. -/
theorem with_session_updates_use_date (db : DB) (sessionParam : Option String)
    (now : Nat) (view : DB → Nat → DB × Except Nat Resp) (sess : Session)
    (h : session_of db sessionParam = some sess) :
    ∃ db', with_session db sessionParam now view = view db' sess.userId
      ∧ (∀ i : Nat, db'.sessions.get? i = (db.sessions.get? i).map (fun s =>
           if s.id = sess.id then { s with lastUsedAt := now } else s))
      ∧ db'.users = db.users ∧ db'.searches = db.searches
      ∧ db'.contributions = db.contributions ∧ db'.reads = db.reads
      ∧ db'.languages = db.languages ∧ db'.nextId = db.nextId := by
  cases sessionParam with
  | none => cases h
  | some sp =>
    cases hip : pyInt? sp with
    | none =>
      rw [session_of, hip] at h
      cases h
    | some sid =>
      have hg : Session.get db sid = some sess := by
        rw [session_of, hip] at h
        exact h
      refine ⟨update_use_date db sess.id now, ?_, ?_, rfl, rfl, rfl, rfl, rfl, rfl⟩
      · simp [with_session, hip, hg]
      · intro i
        simp [update_use_date, List.get?_map]

/-- Witness for C8 on the sample store: the token "99" resolves. -/
theorem with_session_updates_use_date_witness :
    ∃ db', with_session dbSample (some "99") 42 validate = validate db' 7
      ∧ (∀ i : Nat, db'.sessions.get? i = (dbSample.sessions.get? i).map (fun s =>
           if s.id = 99 then { s with lastUsedAt := 42 } else s))
      ∧ db'.users = dbSample.users ∧ db'.searches = dbSample.searches
      ∧ db'.contributions = dbSample.contributions ∧ db'.reads = dbSample.reads
      ∧ db'.languages = dbSample.languages ∧ db'.nextId = dbSample.nextId :=
  with_session_updates_use_date dbSample (some "99") 42 validate ⟨99, 7, 0⟩ (by decide)

/-- C5 as stated is refuted here: the `/validate` route called without a
session renders a 401 response whose header list is empty, so not every
outcome carries the permissive CORS header. -/
theorem cors_missing_on_error_response :
    (render (validate_endpoint emptyDB none 0).2).status = 401
      ∧ (render (validate_endpoint emptyDB none 0).2).headers = [] :=
  ⟨rfl, rfl⟩

/-- C5 (amended): every response successfully returned through the
`cross_domain` wrapper carries `Access-Control-Allow-Origin: *`; only the
framework-rendered error responses of aborted requests lack it. -/
theorem cors_on_every_ok_response (res : DB × Except Nat Resp) (db' : DB)
    (r : Resp) (h : cross_domain res = (db', Except.ok r)) :
    ("Access-Control-Allow-Origin", "*") ∈ r.headers := by
  rcases res with ⟨db0, e⟩
  cases e with
  | ok r0 =>
    have hr : r = { r0 with
        headers := ("Access-Control-Allow-Origin", "*") :: r0.headers } := by
      have := congrArg Prod.snd h
      simpa [cross_domain] using this.symm
    rw [hr]
    exact List.mem_cons_self _ _
  | error e0 =>
    exact absurd (congrArg Prod.snd h) (by simp [cross_domain])

/-- Witness for the amended C5 at a concrete successful response. -/
theorem cors_on_every_ok_response_witness :
    ("Access-Control-Allow-Origin", "*")
        ∈ (Resp.mk 200 [("Access-Control-Allow-Origin", "*")] "OK").headers :=
  cors_on_every_ok_response (emptyDB, Except.ok (Resp.mk 200 [] "OK")) emptyDB
    (Resp.mk 200 [("Access-Control-Allow-Origin", "*")] "OK") rfl

/-- C3: `lookup` for an authenticated user returns "OK" and always appends
exactly one fresh search row to the search log, whatever prior (even
identical) searches exist; the word is normalised through the vocabulary
store from the decoded term, and a text is attached to the search precisely
when the raw `text` form field was supplied. -/
theorem lookup_appends_search (db : DB) (uid : Nat)
    (from_lang term to_lang : String) (content : Option String) (now : Nat)
    (hfrom : from_lang ∈ db.languages) (hto : to_lang ∈ db.languages) :
    ∃ db' s, lookup db uid from_lang term to_lang content now = some (db', "OK")
      ∧ db'.searches = db.searches ++ [s]
      ∧ s.userId = uid
      ∧ s.word = Word.find (decode_word term) from_lang
      ∧ s.language = to_lang
      ∧ s.contribution = none
      ∧ s.text = content.map (fun c => Text.find c from_lang now) := by
  cases content with
  | none =>
    refine ⟨{ db with
        searches := db.searches ++ [⟨db.nextId, uid,
          Word.find (decode_word term) from_lang, to_lang, none, none⟩],
        nextId := db.nextId + 1 },
      ⟨db.nextId, uid, Word.find (decode_word term) from_lang,
        to_lang, none, none⟩, ?_, rfl, rfl, rfl, rfl, rfl, rfl⟩
    simp [lookup, Language.find, hfrom, hto]
  | some c =>
    refine ⟨{ db with
        reads := db.reads ++ [(uid, Text.find c from_lang now)],
        searches := db.searches ++ [⟨db.nextId, uid,
          Word.find (decode_word term) from_lang, to_lang,
          some (Text.find c from_lang now), none⟩],
        nextId := db.nextId + 1 },
      ⟨db.nextId, uid, Word.find (decode_word term) from_lang,
        to_lang, some (Text.find c from_lang now), none⟩,
      ?_, rfl, rfl, rfl, rfl, rfl, rfl⟩
    simp [lookup, Language.find, hfrom, hto]

/-- Witness for C3 on the sample store, which already holds two searches for
the same user, word and target language: a third row is appended. -/
theorem lookup_appends_search_witness :
    ∃ db' s, lookup dbSample 7 "en" "ca+t" "de" (some "The cat sat") 50
        = some (db', "OK")
      ∧ db'.searches = dbSample.searches ++ [s]
      ∧ s.userId = 7
      ∧ s.word = Word.find (decode_word "ca+t") "en"
      ∧ s.language = "de"
      ∧ s.contribution = none
      ∧ s.text = (some "The cat sat").map (fun c => Text.find c "en" 50) :=
  lookup_appends_search dbSample 7 "en" "ca+t" "de" (some "The cat sat") 50
    (by decide) (by decide)

/-- C1: `contribute_with_context` for an authenticated user returns "OK" and
appends one fresh contribution (decoded origin word, decoded translation
word, user, fresh text, current time); when the user has matching searches
for the decoded origin word and the target language, the one of maximal id
(the most recent, ids being monotonic) gets its contribution link set to the
new contribution, overwriting any prior link; with no matching search the
search log is untouched and the contribution stands alone. -/
theorem contribute_with_context_spec (db : DB) (uid : Nat)
    (from_lang_code term to_lang_code translation : String)
    (form : ContribForm) (now : Nat)
    (hfrom : from_lang_code ∈ db.languages) (hto : to_lang_code ∈ db.languages) :
    ∃ db',
      contribute_with_context db uid from_lang_code term to_lang_code translation
          form now = some (db', "OK")
      ∧ db'.contributions = db.contributions ++
          [⟨db.nextId, Word.find (decode_word term) from_lang_code,
            Word.find (decode_word translation) to_lang_code, uid,
            ⟨form.context, from_lang_code,
             some (Url.find form.url (form.title.getD "")), now⟩, now⟩]
      ∧ ((contribMatches db uid (Word.find (decode_word term) from_lang_code)
              to_lang_code = [] ∧ db'.searches = db.searches)
         ∨ (∃ s ∈ contribMatches db uid
                (Word.find (decode_word term) from_lang_code) to_lang_code,
              (∀ t ∈ contribMatches db uid
                  (Word.find (decode_word term) from_lang_code) to_lang_code,
                 t.id ≤ s.id)
              ∧ db'.searches = db.searches.map (fun t =>
                  if t.id = s.id then { t with contribution := some db.nextId }
                  else t))) := by
  obtain ⟨ftitle, furl, fctx⟩ := form
  have hf : Language.find db from_lang_code = some from_lang_code := by
    simp [Language.find, hfrom]
  have ht : Language.find db to_lang_code = some to_lang_code := by
    simp [Language.find, hto]
  cases hh : ((contribMatches db uid (Word.find (decode_word term) from_lang_code)
      to_lang_code).insertionSort (fun a b => a.id ≥ b.id)).head? with
  | none =>
    refine ⟨{ db with
        contributions := db.contributions ++
          [⟨db.nextId, Word.find (decode_word term) from_lang_code,
            Word.find (decode_word translation) to_lang_code, uid,
            ⟨fctx, from_lang_code,
             some (Url.find furl (ftitle.getD "")), now⟩, now⟩],
        nextId := db.nextId + 1 }, ?_, rfl,
      Or.inl ⟨head_sortDesc_none hh, rfl⟩⟩
    cases ftitle <;>
      simp [contribute_with_context, hf, ht, hh, Option.getD]
  | some s =>
    obtain ⟨hmem, hmax⟩ := head_sortDesc_max hh
    refine ⟨{ db with
        searches := db.searches.map (fun t =>
          if t.id = s.id then { t with contribution := some db.nextId } else t),
        contributions := db.contributions ++
          [⟨db.nextId, Word.find (decode_word term) from_lang_code,
            Word.find (decode_word translation) to_lang_code, uid,
            ⟨fctx, from_lang_code,
             some (Url.find furl (ftitle.getD "")), now⟩, now⟩],
        nextId := db.nextId + 1 }, ?_, rfl,
      Or.inr ⟨s, hmem, hmax, rfl⟩⟩
    cases ftitle <;>
      simp [contribute_with_context, hf, ht, hh, Option.getD]

/-- Witness for C1 on the sample store, whose searches with ids 1 and 3 both
match: the contribution must attach to the one of maximal id. -/
theorem contribute_with_context_spec_witness :
    ∃ db',
      contribute_with_context dbSample 7 "en" "cat" "de" "Katze"
          ⟨none, "http://x", "The cat sat"⟩ 100 = some (db', "OK")
      ∧ db'.contributions = dbSample.contributions ++
          [⟨dbSample.nextId, Word.find (decode_word "cat") "en",
            Word.find (decode_word "Katze") "de", 7,
            ⟨"The cat sat", "en",
             some (Url.find "http://x"
               ((ContribForm.mk none "http://x" "The cat sat").title.getD "")),
             100⟩, 100⟩]
      ∧ ((contribMatches dbSample 7 (Word.find (decode_word "cat") "en") "de" = []
            ∧ db'.searches = dbSample.searches)
         ∨ (∃ s ∈ contribMatches dbSample 7
                (Word.find (decode_word "cat") "en") "de",
              (∀ t ∈ contribMatches dbSample 7
                  (Word.find (decode_word "cat") "en") "de",
                 t.id ≤ s.id)
              ∧ db'.searches = dbSample.searches.map (fun t =>
                  if t.id = s.id then { t with contribution := some dbSample.nextId }
                  else t))) :=
  contribute_with_context_spec dbSample 7 "en" "cat" "de" "Katze"
    ⟨none, "http://x", "The cat sat"⟩ 100 (by decide) (by decide)

/-- C4: `contributions_by_day` buckets the authenticated user's contributions
by the calendar date of each contribution's text (the time-of-day component
discarded); the sequence of dates in the response is strictly descending,
the date of every contribution of the user appears, each bucket holds
exactly the user's contributions of that date serialised with id, origin
word, translation word, url title and url address, and an entry carries the
context content exactly when the path flag is the string "with_context". -/
theorem contributions_by_day_spec (db : DB) (uid : Nat) (return_context : String) :
    List.Pairwise (fun a b => a > b)
        ((contributions_by_day db uid return_context).map DateEntry.date)
      ∧ (∀ c ∈ db.contributions, c.userId = uid →
           calendarDate c.text.time
             ∈ (contributions_by_day db uid return_context).map DateEntry.date)
      ∧ (∀ e ∈ contributions_by_day db uid return_context,
           e.contribs = ((db.contributions.filter
                 (fun c => decide (c.userId = uid))).filter
               (fun c => decide (calendarDate c.text.time = e.date))).map
             (fun c =>
               { id := c.id
                 origin_word := c.origin.word
                 translation_word := c.translation.word
                 title := ((c.text.url).map Url.title).getD ""
                 url := ((c.text.url).map Url.url).getD ""
                 context := if return_context == "with_context"
                   then some c.text.content else none }))
      ∧ (∀ e ∈ contributions_by_day db uid return_context, ∀ en ∈ e.contribs,
           en.context.isSome ↔ return_context = "with_context") := by
  set cs := db.contributions.filter (fun c => decide (c.userId = uid)) with hcs
  set dates := (cs.map (fun c => calendarDate c.text.time)).dedup with hdates
  have hout : contributions_by_day db uid return_context
      = (dates.insertionSort (fun a b => a ≥ b)).map (fun date =>
          { date := date
            contribs := (cs.filter
                (fun c => decide (calendarDate c.text.time = date))).map
              (contribEntryOf (return_context == "with_context")) }) := rfl
  have hperm := List.perm_insertionSort (fun a b : Nat => a ≥ b) dates
  have hsorted : List.Pairwise (fun a b : Nat => a ≥ b)
      (dates.insertionSort (fun a b => a ≥ b)) :=
    List.sorted_insertionSort (fun a b : Nat => a ≥ b) dates
  have hnodup : (dates.insertionSort (fun a b : Nat => a ≥ b)).Nodup :=
    (hperm.nodup_iff).mpr (List.nodup_dedup _)
  have hdmap : (contributions_by_day db uid return_context).map DateEntry.date
      = dates.insertionSort (fun a b => a ≥ b) := by
    rw [hout, List.map_map]
    show List.map (fun d : Nat => d) (dates.insertionSort fun a b => a ≥ b)
        = dates.insertionSort fun a b => a ≥ b
    exact List.map_id' _
  refine ⟨?_, ?_, ?_, ?_⟩
  · rw [hdmap]
    exact (hsorted.and hnodup).imp (fun h => lt_of_le_of_ne h.1 (fun e => h.2 e.symm))
  · intro c hc hcu
    rw [hdmap, hperm.mem_iff, List.mem_dedup]
    exact List.mem_map.mpr
      ⟨c, List.mem_filter.mpr ⟨hc, decide_eq_true hcu⟩, rfl⟩
  · intro e he
    rw [hout] at he
    rcases List.mem_map.mp he with ⟨d, _, rfl⟩
    rfl
  · intro e he en hen
    rw [hout] at he
    rcases List.mem_map.mp he with ⟨d, _, rfl⟩
    rcases List.mem_map.mp hen with ⟨c, _, rfl⟩
    cases hwc : (return_context == "with_context") with
    | false =>
      have hne : return_context ≠ "with_context" := beq_eq_false_iff_ne.mp hwc
      simp [contribEntryOf, hwc, hne]
    | true =>
      have heq : return_context = "with_context" := beq_iff_eq.mp hwc
      simp [contribEntryOf, hwc, heq]

end Zeeguu
